import Mathlib

/- Verification development for the BANGLA VOICE TOOLS audio pipeline.
   The TypeScript source (src/App.tsx, src/services/geminiService.ts,
   src/components/SegmentList.tsx, src/types.ts) is embedded shallowly:
   byte buffers are lists of naturals below 256, 16-bit samples are
   integers, JavaScript floating-point gains are rationals, and the
   asynchronous scheduler is a deterministic interpreter driven by
   oracles for task outcomes, settlement order and the stop signal. -/

namespace BVT

/-! ### Container codec — createWavUrl (src/services/geminiService.ts) -/

/-- Little-endian bytes of the low 16 bits of a natural number, as
written by DataView.setUint16 with littleEndian = true. -/
def le16 (n : ℕ) : List ℕ := [n % 256, n / 256 % 256]

/-- Little-endian bytes of the low 32 bits of a natural number, as
written by DataView.setUint32 with littleEndian = true. -/
def le32 (n : ℕ) : List ℕ :=
  [n % 256, n / 256 % 256, n / 2 ^ 16 % 256, n / 2 ^ 24 % 256]

/-- Value denoted by four little-endian bytes. -/
def fromLE32 (bs : List ℕ) : ℕ :=
  match bs with
  | [b0, b1, b2, b3] => b0 + 256 * b1 + 2 ^ 16 * b2 + 2 ^ 24 * b3
  | _ => 0

/-- ASCII codes of a string, as written by the writeString helper of
createWavUrl. -/
def asciiCodes (s : String) : List ℕ := s.data.map (fun c => c.toNat)

/-- The 44-byte WAV header built by createWavUrl for a payload of `len`
bytes at sample rate `rate`: RIFF length 36+len, PCM format 1, one
channel, 16 bits per sample, byte rate rate*2, block align 2, data
chunk length len. -/
def wavHeader (len rate : ℕ) : List ℕ :=
  asciiCodes "RIFF" ++ le32 (36 + len) ++ asciiCodes "WAVE" ++
  asciiCodes "fmt " ++ le32 16 ++ le16 1 ++ le16 1 ++ le32 rate ++
  le32 (rate * 2) ++ le16 2 ++ le16 16 ++ asciiCodes "data" ++ le32 len

/-- createWavUrl: the produced container is the 44-byte header followed
by the raw samples, unchanged. -/
def encode (samples : List ℕ) (rate : ℕ) : List ℕ :=
  wavHeader samples.length rate ++ samples

/-- Header stripping as performed at merge time in handleExportMerged:
`arrayBuffer.slice(44)`. -/
def decode (container : List ℕ) : List ℕ := container.drop 44

theorem wavHeader_length (len rate : ℕ) : (wavHeader len rate).length = 44 := by
  simp [wavHeader, asciiCodes, le16, le32]

/-! ### Volume scaler — handleExportMerged, lines 446-453 (src/App.tsx) -/

/-- The clamp written in the merge loop: values above 32767 become
32767, values below -32768 become -32768. -/
def clampRat (q : ℚ) : ℚ :=
  if q > 32767 then 32767 else if q < -32768 then -32768 else q

/-- JavaScript truncation toward zero, the implicit ToInt16 conversion
performed by the assignment `int16View[i] = val`. -/
def jsTrunc (q : ℚ) : ℤ := if 0 ≤ q then ⌊q⌋ else ⌈q⌉

/-- One sample through the merge-time volume loop: multiply by the
gain, clamp into the 16-bit signed range, then store through the
Int16Array view (truncation toward zero). -/
def scaleSample (gain : ℚ) (v : ℤ) : ℤ := jsTrunc (clampRat (v * gain))

/-- The per-sample formula written in the specification:
clamp(round(v * gain), -32768, 32767). -/
def specScaleSample (gain : ℚ) (v : ℤ) : ℤ :=
  max (-32768) (min 32767 (round ((v : ℚ) * gain)))

/-- The signed 16-bit sample denoted by two little-endian bytes, the
reading performed by the Int16Array view over the payload. -/
def int16OfBytes (lo hi : ℕ) : ℤ :=
  let u := lo % 256 + 256 * (hi % 256)
  if u < 32768 then (u : ℤ) else (u : ℤ) - 65536

/-- Two little-endian bytes storing a signed 16-bit sample. -/
def bytesOfInt16 (v : ℤ) : List ℕ :=
  let u := (v % 65536).toNat
  [u % 256, u / 256 % 256]

/-- The whole-buffer volume pass: every aligned 16-bit pair is scaled
in place; a trailing odd byte is left untouched (the Int16Array view
covers byteLength / 2 whole samples). -/
def scaleBytes (gain : ℚ) : List ℕ → List ℕ
  | lo :: hi :: rest =>
      bytesOfInt16 (scaleSample gain (int16OfBytes lo hi)) ++ scaleBytes gain rest
  | rest => rest

/-! ### Chunker — handleChunkText (src/App.tsx) -/

def MAX_CHUNK_LENGTH : ℕ := 1000

/-- One iteration of the forEach accumulation loop of handleChunkText:
append the sentence (with a single separating space when the buffer is
non-empty) when `currentChunk.length + sentence.length < maxLength`,
otherwise flush the non-empty buffer and restart from the sentence. -/
def chunkStep (maxLength : ℕ) (acc : List String × String) (sentence : String) :
    List String × String :=
  let out := acc.1
  let currentChunk := acc.2
  if currentChunk.length + sentence.length < maxLength then
    (out, currentChunk ++ (if currentChunk ≠ "" then " " else "") ++ sentence)
  else
    ((if currentChunk ≠ "" then out ++ [currentChunk] else out), sentence)

/-- The accumulation phase of handleChunkText: fold the sentences
through chunkStep and flush a non-empty trailing buffer. -/
def chunkSentences (maxLength : ℕ) (sentences : List String) : List String :=
  let acc := sentences.foldl (chunkStep maxLength) ([], "")
  if acc.2 ≠ "" then acc.1 ++ [acc.2] else acc.1

/-! ### Theorems for the codec, scaler and chunker -/

lemma jsTrunc_intCast (n : ℤ) : jsTrunc (n : ℚ) = n := by
  unfold jsTrunc
  by_cases h : (0 : ℚ) ≤ (n : ℚ)
  · rw [if_pos h, Int.floor_intCast]
  · rw [if_neg h, Int.ceil_intCast]

/-- Claim C1 counterexample: at gain 3/2 (inside [0,2], farther than 0.01
from 1) the merge-time loop maps the sample 1 to 1, while the claimed
formula clamp(round(v*gain)) gives 2: the Int16Array store truncates
toward zero, it does not round. -/
theorem C1_counterexample :
    (0 : ℚ) ≤ 3 / 2 ∧ (3 / 2 : ℚ) ≤ 2 ∧ |(3 / 2 : ℚ) - 1| > 1 / 100 ∧
    scaleSample (3 / 2) 1 = 1 ∧ specScaleSample (3 / 2) 1 = 2 ∧
    scaleSample (3 / 2) 1 ≠ specScaleSample (3 / 2) 1 := by
  have e1 : scaleSample (3 / 2) 1 = 1 := by
    unfold scaleSample clampRat jsTrunc
    have hq : ((1 : ℤ) : ℚ) * (3 / 2) = 3 / 2 := by norm_num
    rw [hq, if_neg (show ¬ (3 / 2 : ℚ) > 32767 by norm_num),
      if_neg (show ¬ (3 / 2 : ℚ) < -32768 by norm_num),
      if_pos (show (0 : ℚ) ≤ 3 / 2 by norm_num)]
    rw [Int.floor_eq_iff]
    constructor <;> norm_num
  have e2 : specScaleSample (3 / 2) 1 = 2 := by
    unfold specScaleSample
    have hr : round (((1 : ℤ) : ℚ) * (3 / 2)) = 2 := by
      rw [round_eq]
      have hq : ((1 : ℤ) : ℚ) * (3 / 2) + 1 / 2 = 2 := by norm_num
      rw [hq, Int.floor_eq_iff]
      constructor <;> norm_num
    rw [hr]
    decide
  refine ⟨by norm_num, by norm_num, by rw [abs_of_nonneg] <;> norm_num, e1, e2, ?_⟩
  rw [e1, e2]
  decide

/-- Claim C1 (amended): for every gain g in [0,2] with |g-1| > 0.01, the
merge-time volume scaling maps each 16-bit sample v to
clamp(truncate(v*gain), -32768, 32767), where truncate rounds toward
zero (the JavaScript Int16Array conversion), and the buffer pass applies
this samplewise to each aligned little-endian pair. -/
theorem C1_amended (g : ℚ) (hg : 0 ≤ g ∧ g ≤ 2 ∧ |g - 1| > 1 / 100) (v : ℤ)
    (lo hi : ℕ) (rest : List ℕ) :
    scaleSample g v = max (-32768) (min 32767 (jsTrunc ((v : ℚ) * g))) ∧
    scaleBytes g (lo :: hi :: rest) =
      bytesOfInt16 (scaleSample g (int16OfBytes lo hi)) ++ scaleBytes g rest := by
  refine ⟨?_, rfl⟩
  clear hg
  unfold scaleSample clampRat
  set q : ℚ := (v : ℚ) * g with hq
  by_cases h1 : q > 32767
  · rw [if_pos h1]
    have h0 : (0 : ℚ) ≤ q := le_of_lt (lt_trans (by norm_num) h1)
    have hfl : (32767 : ℤ) ≤ ⌊q⌋ := by
      rw [Int.le_floor]; push_cast; linarith
    have hlhs : jsTrunc ((32767 : ℚ)) = 32767 := by
      have : ((32767 : ℚ)) = ((32767 : ℤ) : ℚ) := by norm_num
      rw [this, jsTrunc_intCast]
    rw [hlhs]
    unfold jsTrunc
    rw [if_pos h0]
    omega
  · rw [if_neg h1]
    by_cases h2 : q < -32768
    · rw [if_pos h2]
      have h0 : ¬ (0 : ℚ) ≤ q := by push_neg; linarith
      have hcl : ⌈q⌉ ≤ (-32768 : ℤ) := by
        rw [Int.ceil_le]; push_cast; linarith
      have hlhs : jsTrunc ((-32768 : ℚ)) = -32768 := by
        have : ((-32768 : ℚ)) = ((-32768 : ℤ) : ℚ) := by norm_num
        rw [this, jsTrunc_intCast]
      rw [hlhs]
      unfold jsTrunc
      rw [if_neg h0]
      omega
    · rw [if_neg h2]
      push_neg at h1 h2
      unfold jsTrunc
      by_cases h0 : (0 : ℚ) ≤ q
      · rw [if_pos h0]
        have hub : ⌊q⌋ ≤ 32767 := by
          have := Int.floor_le_floor h1
          rw [show ((32767 : ℚ)) = ((32767 : ℤ) : ℚ) by norm_num, Int.floor_intCast] at this
          exact this
        have hlb : (0 : ℤ) ≤ ⌊q⌋ := by
          have := Int.floor_le_floor h0
          simpa using this
        omega
      · rw [if_neg h0]
        push_neg at h0
        have hub : ⌈q⌉ ≤ 0 := by
          have := Int.ceil_le_ceil (le_of_lt h0)
          simpa using this
        have hlb : (-32768 : ℤ) ≤ ⌈q⌉ := by
          have := Int.ceil_le_ceil h2
          rw [show ((-32768 : ℚ)) = ((-32768 : ℤ) : ℚ) by norm_num, Int.ceil_intCast] at this
          exact this
        omega

/-- Claim C1 amended, witness: at gain 1/2 and sample 100 the scaled
sample is the clamped truncation 50. -/
theorem C1_witness :
    scaleSample (1 / 2) 100 = max (-32768) (min 32767 (jsTrunc (((100 : ℤ) : ℚ) * (1 / 2)))) ∧
    scaleBytes (1 / 2) [100, 0, 7] =
      bytesOfInt16 (scaleSample (1 / 2) (int16OfBytes 100 0)) ++ scaleBytes (1 / 2) [7] :=
  C1_amended (1 / 2)
    ⟨by norm_num, by norm_num, by rw [abs_of_nonpos] <;> norm_num⟩ 100 100 0 [7]

/-- Claim C2: the container built by encode(S, R) is the fixed 44-byte
header followed by S unchanged, stripping the 44-byte header recovers
exactly S, and (for payloads below 2^32, the range of the 32-bit field)
the little-endian payload-length field at offset 40 equals len(S). -/
theorem C2_codec_round_trip (S : List ℕ) (R : ℕ) (h : S.length < 2 ^ 32) :
    decode (encode S R) = S ∧
    encode S R = wavHeader S.length R ++ S ∧
    (wavHeader S.length R).length = 44 ∧
    fromLE32 (((encode S R).drop 40).take 4) = S.length := by
  refine ⟨?_, rfl, wavHeader_length _ _, ?_⟩
  · unfold decode encode
    exact List.drop_left' (wavHeader_length _ _)
  · have hsplit : wavHeader S.length R =
        (asciiCodes "RIFF" ++ le32 (36 + S.length) ++ asciiCodes "WAVE" ++
         asciiCodes "fmt " ++ le32 16 ++ le16 1 ++ le16 1 ++ le32 R ++
         le32 (R * 2) ++ le16 2 ++ le16 16 ++ asciiCodes "data") ++ le32 S.length := by
      simp [wavHeader, List.append_assoc]
    have hlen : (asciiCodes "RIFF" ++ le32 (36 + S.length) ++ asciiCodes "WAVE" ++
         asciiCodes "fmt " ++ le32 16 ++ le16 1 ++ le16 1 ++ le32 R ++
         le32 (R * 2) ++ le16 2 ++ le16 16 ++ asciiCodes "data").length = 40 := by
      simp [asciiCodes, le16, le32]
    have hdrop : (encode S R).drop 40 = le32 S.length ++ S := by
      unfold encode
      rw [hsplit, List.append_assoc]
      exact List.drop_left' hlen
    rw [hdrop, List.take_left' (by simp [le32])]
    unfold fromLE32 le32
    simp only
    omega

/-- Claim C2, witness: a concrete three-byte payload round-trips and its
length field reads back 3. -/
theorem C2_witness :
    decode (encode [1, 2, 3] 24000) = [1, 2, 3] ∧
    fromLE32 (((encode [1, 2, 3] 24000).drop 40).take 4) = 3 := by
  have h := C2_codec_round_trip [1, 2, 3] 24000 (by norm_num)
  exact ⟨h.1, by simpa using h.2.2.2⟩

/-- Invariant of the chunk accumulation fold: every flushed unit, and
the running buffer when non-empty, is either a single input sentence or
has length at most maxLength. -/
lemma chunk_fold_invariant (maxLength : ℕ) (full : List String) :
    ∀ (l : List String) (out : List String) (cur : String),
      (∀ s ∈ l, s ∈ full) →
      (∀ x ∈ out, x ∈ full ∨ x.length ≤ maxLength) →
      (cur = "" ∨ cur ∈ full ∨ cur.length ≤ maxLength) →
      (∀ x ∈ (l.foldl (chunkStep maxLength) (out, cur)).1,
          x ∈ full ∨ x.length ≤ maxLength) ∧
      ((l.foldl (chunkStep maxLength) (out, cur)).2 = "" ∨
       (l.foldl (chunkStep maxLength) (out, cur)).2 ∈ full ∨
       (l.foldl (chunkStep maxLength) (out, cur)).2.length ≤ maxLength)
  | [], _out, _cur, _hl, hout, hcur => ⟨hout, hcur⟩
  | s :: rest, out, cur, hl, hout, hcur => by
    rw [List.foldl_cons]
    have hs : s ∈ full := hl s (List.mem_cons_self s rest)
    have hrest : ∀ x ∈ rest, x ∈ full := fun x hx => hl x (List.mem_cons_of_mem s hx)
    unfold chunkStep
    dsimp only
    by_cases hfit : cur.length + s.length < maxLength
    · rw [if_pos hfit]
      refine chunk_fold_invariant maxLength full rest out _ hrest hout ?_
      by_cases hemp : cur = ""
      · rw [if_neg (by simp [hemp])]
        subst hemp
        simpa using Or.inr (Or.inl hs)
      · rw [if_pos hemp]
        refine Or.inr (Or.inr ?_)
        rw [String.length_append, String.length_append]
        have h1 : (" " : String).length = 1 := rfl
        rw [h1]
        omega
    · rw [if_neg hfit]
      refine chunk_fold_invariant maxLength full rest _ s hrest ?_ (Or.inr (Or.inl hs))
      by_cases hemp : cur = ""
      · rw [if_neg (by simp [hemp])]
        exact hout
      · rw [if_pos hemp]
        intro x hx
        rcases List.mem_append.mp hx with hx | hx
        · exact hout x hx
        · rcases List.mem_singleton.mp hx with rfl
          rcases hcur with h | h
          · exact absurd h hemp
          · exact h

set_option maxRecDepth 20000 in
/-- Claim C3 counterexample: with maxLength = 1000, two sentences of
lengths 499 and 500 are joined (499 + 500 < 1000 passes the source's
check, which omits the separating space), producing a single emitted
unit of two sentences whose length is exactly 1000, not strictly below
maxLength as claimed. -/
theorem C3_counterexample :
    chunkSentences MAX_CHUNK_LENGTH
        [String.mk (List.replicate 499 'a'), String.mk (List.replicate 500 'b')] =
      [String.mk (List.replicate 499 'a') ++ " " ++ String.mk (List.replicate 500 'b')] ∧
    (String.mk (List.replicate 499 'a') ++ " " ++ String.mk (List.replicate 500 'b')).length =
      MAX_CHUNK_LENGTH := by
  constructor
  · rfl
  · rw [String.length_append, String.length_append]
    rfl

/-- Claim C3 (amended): sentences are accumulated into a running buffer
separated by a single space; the buffer is closed exactly when
currentLength + nextSentenceLength (not counting the separating space)
reaches or exceeds maxLength; consequently every emitted unit is a
single input sentence or has length at most maxLength (equality with
maxLength is possible). -/
theorem C3_amended (maxLength : ℕ) (sentences : List String) (u : String)
    (hu : u ∈ chunkSentences maxLength sentences) :
    u ∈ sentences ∨ u.length ≤ maxLength := by
  have h := chunk_fold_invariant maxLength sentences sentences [] ""
    (fun s hs => hs) (by simp) (Or.inl rfl)
  unfold chunkSentences at hu
  simp only at hu
  by_cases hemp : (sentences.foldl (chunkStep maxLength) ([], "")).2 = ""
  · rw [if_neg (by simp [hemp])] at hu
    exact h.1 u hu
  · rw [if_pos hemp] at hu
    rcases List.mem_append.mp hu with hx | hx
    · exact h.1 u hx
    · rcases List.mem_singleton.mp hx with rfl
      rcases h.2 with h2 | h2
      · exact absurd h2 hemp
      · exact h2

/-- Claim C3 amended, witness: the unit "a b" produced from sentences
"a" and "b" at maxLength 10 is within the bound. -/
theorem C3_witness : "a b" ∈ ["a", "b"] ∨ ("a b" : String).length ≤ 10 :=
  C3_amended 10 ["a", "b"] "a b" (by decide)

/-! ### Synthesis adapter — generateSpeechSegment
(src/services/geminiService.ts) -/

/-- The message thrown by generateSpeechSegment when no API key
resolves. -/
def apiKeyMissingMsg : String :=
  "API Key not found. Please add your Custom API Key in Settings (Gear Icon) or configure the environment."

/-- Credential resolution, `customApiKey || process.env.API_KEY` under
JavaScript truthiness: an absent or empty custom key falls through to
the environment key; an absent or empty environment key leaves nothing
resolved. -/
def resolveApiKey (customApiKey envKey : Option String) : Option String :=
  if customApiKey.getD "" ≠ "" then some (customApiKey.getD "")
  else if envKey.getD "" ≠ "" then some (envKey.getD "")
  else none

def leftBrace : Char := Char.ofNat 123

def rightBrace : Char := Char.ofNat 125

/-- `lastError?.message || "Unknown API Error"`: an absent or empty
message is replaced by the fallback text. -/
def rawErrorText (e : String) : String := if e = "" then "Unknown API Error" else e

/-- Error-message normalization after retries exhaust.  The embedded
regex match and JSON.parse with field selection are host-library calls,
abstracted by `jsonNormalize`, consulted only when the message contains
both an opening and a closing brace; `none` (no parsable JSON object or
no usable message field) keeps the original message. -/
def normalizeError (jsonNormalize : String → Option String) (msg : String) : String :=
  if msg.contains leftBrace && msg.contains rightBrace then
    (jsonNormalize msg).getD msg
  else msg

def maxRetries : ℕ := 3

/-- One adapter run: the final result, the backoff delays performed (in
milliseconds, in order), and the number of synthesis attempts made. -/
structure RetryRun where
  result : Except String (List ℕ)
  delays : List ℕ
  attemptsMade : ℕ

/-- The retry loop of generateSpeechSegment, driven by the list of
remaining attempt indices (the source's `for attempt in 0..<maxRetries`).
An attempt yielding decoded audio bytes returns the WAV container at
24000 Hz at once; a failed attempt records its error and, when
`attempt < maxRetries - 1`, awaits a delay of 1000 * (attempt + 1) ms;
exhaustion throws the normalized text of the last error. -/
def retryGo (attempts : ℕ → Except String (List ℕ))
    (jsonNormalize : String → Option String) :
    List ℕ → List ℕ → ℕ → String → RetryRun
  | [], delays, made, lastError =>
      ⟨Except.error (normalizeError jsonNormalize (rawErrorText lastError)), delays, made⟩
  | attempt :: rest, delays, made, _lastError =>
      match attempts attempt with
      | Except.ok bytes => ⟨Except.ok (encode bytes 24000), delays, made + 1⟩
      | Except.error e =>
          retryGo attempts jsonNormalize rest
            (if attempt < maxRetries - 1 then delays ++ [1000 * (attempt + 1)] else delays)
            (made + 1) e

/-- generateSpeechSegment: resolve the credential — throwing before the
retry loop, with no attempt made, when none resolves — then run the
retry loop over attempt indices 0 .. maxRetries-1. -/
def generateSpeechSegmentModel (customApiKey envKey : Option String)
    (attempts : ℕ → Except String (List ℕ))
    (jsonNormalize : String → Option String) : RetryRun :=
  match resolveApiKey customApiKey envKey with
  | none => ⟨Except.error apiKeyMissingMsg, [], 0⟩
  | some _ => retryGo attempts jsonNormalize (List.range maxRetries) [] 0 ""

/-- Claim C4: with a resolvable credential, synthesis is attempted at
most 3 times, the backoff delays performed are the corresponding front
of [1000 ms, 2000 ms]; the first successful attempt terminates the loop
at once with that attempt's result (the WAV container of its bytes);
and when all 3 attempts fail the run ends with the last attempt's
normalized error text after exactly 3 attempts. -/
theorem C4_retry (custom envKey : Option String) (key : String)
    (hkey : resolveApiKey custom envKey = some key)
    (attempts : ℕ → Except String (List ℕ)) (jn : String → Option String) :
    (generateSpeechSegmentModel custom envKey attempts jn).attemptsMade ≤ 3 ∧
    (generateSpeechSegmentModel custom envKey attempts jn).delays =
      List.take ((generateSpeechSegmentModel custom envKey attempts jn).attemptsMade - 1)
        [1000, 2000] ∧
    (∀ k, k < 3 → (∀ j, j < k → ∃ e, attempts j = Except.error e) →
      ∀ b, attempts k = Except.ok b →
        (generateSpeechSegmentModel custom envKey attempts jn).result =
            Except.ok (encode b 24000) ∧
          (generateSpeechSegmentModel custom envKey attempts jn).attemptsMade = k + 1) ∧
    ((∀ j, j < 3 → ∃ e, attempts j = Except.error e) →
      ∃ e2, attempts 2 = Except.error e2 ∧
        (generateSpeechSegmentModel custom envKey attempts jn).result =
          Except.error (normalizeError jn (rawErrorText e2)) ∧
        (generateSpeechSegmentModel custom envKey attempts jn).attemptsMade = 3) := by
  have hmodel : generateSpeechSegmentModel custom envKey attempts jn =
      retryGo attempts jn [0, 1, 2] [] 0 "" := by
    unfold generateSpeechSegmentModel
    rw [hkey]
    rfl
  rw [hmodel]
  cases h0 : attempts 0 with
  | ok b0 =>
    have hrun : retryGo attempts jn [0, 1, 2] [] 0 "" =
        ⟨Except.ok (encode b0 24000), [], 1⟩ := by
      simp [retryGo, h0]
    rw [hrun]
    refine ⟨by norm_num, by simp, ?_, ?_⟩
    · intro k hk hprev b hb
      interval_cases k
      · rw [h0] at hb
        injection hb with hb
        subst hb
        exact ⟨rfl, rfl⟩
      · obtain ⟨e, he⟩ := hprev 0 (by norm_num)
        rw [h0] at he
        exact absurd he (by simp)
      · obtain ⟨e, he⟩ := hprev 0 (by norm_num)
        rw [h0] at he
        exact absurd he (by simp)
    · intro hall
      obtain ⟨e, he⟩ := hall 0 (by norm_num)
      rw [h0] at he
      exact absurd he (by simp)
  | error e0 =>
    cases h1 : attempts 1 with
    | ok b1 =>
      have hrun : retryGo attempts jn [0, 1, 2] [] 0 "" =
          ⟨Except.ok (encode b1 24000), [1000], 2⟩ := by
        simp [retryGo, h0, h1, maxRetries]
      rw [hrun]
      refine ⟨by norm_num, by simp, ?_, ?_⟩
      · intro k hk hprev b hb
        interval_cases k
        · rw [h0] at hb
          exact absurd hb (by simp)
        · rw [h1] at hb
          injection hb with hb
          subst hb
          exact ⟨rfl, rfl⟩
        · obtain ⟨e, he⟩ := hprev 1 (by norm_num)
          rw [h1] at he
          exact absurd he (by simp)
      · intro hall
        obtain ⟨e, he⟩ := hall 1 (by norm_num)
        rw [h1] at he
        exact absurd he (by simp)
    | error e1 =>
      cases h2 : attempts 2 with
      | ok b2 =>
        have hrun : retryGo attempts jn [0, 1, 2] [] 0 "" =
            ⟨Except.ok (encode b2 24000), [1000, 2000], 3⟩ := by
          simp [retryGo, h0, h1, h2, maxRetries]
        rw [hrun]
        refine ⟨by norm_num, by simp, ?_, ?_⟩
        · intro k hk hprev b hb
          interval_cases k
          · rw [h0] at hb
            exact absurd hb (by simp)
          · rw [h1] at hb
            exact absurd hb (by simp)
          · rw [h2] at hb
            injection hb with hb
            subst hb
            exact ⟨rfl, rfl⟩
        · intro hall
          obtain ⟨e, he⟩ := hall 2 (by norm_num)
          rw [h2] at he
          exact absurd he (by simp)
      | error e2 =>
        have hrun : retryGo attempts jn [0, 1, 2] [] 0 "" =
            ⟨Except.error (normalizeError jn (rawErrorText e2)), [1000, 2000], 3⟩ := by
          simp [retryGo, h0, h1, h2, maxRetries]
        rw [hrun]
        refine ⟨by norm_num, by simp, ?_, ?_⟩
        · intro k hk hprev b hb
          interval_cases k
          · rw [h0] at hb
            exact absurd hb (by simp)
          · rw [h1] at hb
            exact absurd hb (by simp)
          · rw [h2] at hb
            exact absurd hb (by simp)
        · intro _hall
          exact ⟨e2, rfl, rfl, rfl⟩

/-- Claim C4, witness: two failures then a success reach Done with the
third attempt's container after delays of 1 s and 2 s. -/
theorem C4_witness :
    ((generateSpeechSegmentModel (some "k") none
        (fun n => if n < 2 then Except.error "boom" else Except.ok [5, 6])
        (fun _ => none)).result = Except.ok (encode [5, 6] 24000) ∧
      (generateSpeechSegmentModel (some "k") none
        (fun n => if n < 2 then Except.error "boom" else Except.ok [5, 6])
        (fun _ => none)).attemptsMade = 2 + 1) ∧
    (generateSpeechSegmentModel (some "k") none
        (fun n => if n < 2 then Except.error "boom" else Except.ok [5, 6])
        (fun _ => none)).delays =
      List.take ((generateSpeechSegmentModel (some "k") none
        (fun n => if n < 2 then Except.error "boom" else Except.ok [5, 6])
        (fun _ => none)).attemptsMade - 1) [1000, 2000] := by
  have h := C4_retry (some "k") none "k" (by decide)
    (fun n => if n < 2 then Except.error "boom" else Except.ok [5, 6]) (fun _ => none)
  refine ⟨h.2.2.1 2 (by norm_num) ?_ [5, 6] (by norm_num), h.2.1⟩
  intro j hj
  exact ⟨"boom", by simp [hj]⟩

/-- Claim C9 counterexample: with no explicit credential and no ambient
default, generateSpeechSegment throws the missing-credential error
immediately, with zero synthesis attempts and zero backoff delays — the
check sits before the retry loop, so the failure is not retried and is
not surfaced "only after the retry budget is exhausted" as claimed. -/
theorem C9_counterexample :
    (generateSpeechSegmentModel none none (fun _ => Except.error "boom")
        (fun _ => none)).attemptsMade = 0 ∧
    (generateSpeechSegmentModel none none (fun _ => Except.error "boom")
        (fun _ => none)).delays = [] ∧
    (generateSpeechSegmentModel none none (fun _ => Except.error "boom")
        (fun _ => none)).result = Except.error apiKeyMissingMsg := by
  refine ⟨rfl, rfl, rfl⟩

/-- Claim C9 (amended): the effective credential is the explicit
credential argument when it is supplied and non-empty, else the ambient
default when that is non-empty; when neither exists the run fails with
the missing-credential error immediately — thrown before the retry
loop, with no attempt made and no backoff delay, so it surfaces as the
unit's error without any retries. -/
theorem C9_amended (custom envKey : Option String)
    (attempts : ℕ → Except String (List ℕ)) (jn : String → Option String) :
    (∀ c, custom = some c → c ≠ "" → resolveApiKey custom envKey = some c) ∧
    (custom.getD "" = "" → ∀ e, envKey = some e → e ≠ "" →
      resolveApiKey custom envKey = some e) ∧
    (custom.getD "" = "" → envKey.getD "" = "" →
      generateSpeechSegmentModel custom envKey attempts jn =
        ⟨Except.error apiKeyMissingMsg, [], 0⟩) := by
  refine ⟨?_, ?_, ?_⟩
  · intro c hc hne
    subst hc
    unfold resolveApiKey
    rw [if_pos (by simpa using hne)]
    simp
  · intro hcust e he hne
    subst he
    unfold resolveApiKey
    rw [if_neg (by simpa using hcust), if_pos (by simpa using hne)]
    simp
  · intro hcust henv
    unfold generateSpeechSegmentModel resolveApiKey
    rw [if_neg (by simpa using hcust), if_neg (by simpa using henv)]

/-- Claim C9 amended, witness: a supplied non-empty credential "k" is
the resolved credential. -/
theorem C9_witness : resolveApiKey (some "k") none = some "k" :=
  (C9_amended (some "k") none (fun _ => Except.error "x") (fun _ => none)).1
    "k" rfl (by decide)

/-! ### Scheduler — processQueue (src/App.tsx), statuses from
src/types.ts, retry button from src/components/SegmentList.tsx -/

/-- Unit lifecycle states (src/types.ts, SegmentStatus). -/
inductive SegmentStatus
  | IDLE
  | QUEUED
  | PROCESSING
  | COMPLETED
  | ERROR
  deriving DecidableEq

/-- One audio segment as the scheduler and the merge assembler see it.
`α` is the type of the stored audio reference (the object URL in the
source). -/
structure Seg (α : Type) where
  id : ℕ
  status : SegmentStatus
  audioUrl : Option α
  error : Option String
  volume : ℚ
  deriving DecidableEq

/-- Trace events of one scheduling run: the dispatch of a unit's
synthesis task, or the settlement of that task.  A settlement carries
`true` when the stop signal was clear as its continuation ran (its
updates were committed) and `false` when the outcome was discarded. -/
inductive Ev
  | dispatch (i : ℕ)
  | settle (i : ℕ) (committed : Bool)
  deriving DecidableEq

/-- The evolving state of one processQueue run.  `sizes` records the
cardinality of the executing set after every change, and
`progressHistory` every committed value of the progress counter. -/
structure RunState (α : Type) where
  segs : List (Seg α)
  executing : List ℕ
  completedCount : ℕ
  progressCur : ℕ
  progressTotal : ℕ
  running : Bool
  events : List Ev
  sizes : List ℕ
  progressHistory : List ℕ

/-- The stop signal as observed after `n` run events: the user set it
once `stopAfter` events had occurred (`none` = never set during this
run; processQueue clears the signal at run start). -/
def stopFlag (stopAfter : Option ℕ) (n : ℕ) : Bool :=
  match stopAfter with
  | none => false
  | some t => decide (t ≤ n)

/-- Settlement of unit `i`'s task (the body of the async closure in
processQueue, lines 304-338): the settle event is recorded and the task
leaves the executing set (its `.then(clean)` handler); the continuation
then checks the stop signal: when clear it stores the outcome —
COMPLETED with the audio reference, or ERROR with the message — and the
finally-block advances completedCount and commits it as the progress
counter; when set the entire outcome is discarded. -/
def applyOutcome {α : Type} (outcomes : ℕ → Except String α)
    (stopAfter : Option ℕ) (st : RunState α) (i : ℕ) : RunState α :=
  let stp := stopFlag stopAfter (st.events.length + 1)
  let executing2 := st.executing.filter (fun j => decide (j ≠ i))
  let st2 := { st with
    executing := executing2,
    events := st.events ++ [Ev.settle i (!stp)],
    sizes := st.sizes ++ [executing2.length] }
  if stp then st2
  else
    let st3 :=
      match outcomes i with
      | Except.ok url => { st2 with segs := st2.segs.map (fun s : Seg α =>
          if s.id = i then
            { s with status := SegmentStatus.COMPLETED, audioUrl := some url }
          else s) }
      | Except.error e => { st2 with segs := st2.segs.map (fun s : Seg α =>
          if s.id = i then
            { s with status := SegmentStatus.ERROR, error := some e }
          else s) }
    { st3 with
      completedCount := st3.completedCount + 1,
      progressCur := st3.completedCount + 1,
      progressHistory := st3.progressHistory ++ [st3.completedCount + 1] }

/-- One `await Promise.race(executing)` suspension point: the
environment (through `raceChoice`, indexed by the current event count)
picks which outstanding tasks settle before the loop resumes.
Promise.race resumes only after at least one settles, so an empty or
alien choice defaults to the first outstanding task. -/
def raceStep {α : Type} (outcomes : ℕ → Except String α)
    (stopAfter : Option ℕ) (raceChoice : ℕ → List ℕ) (st : RunState α) :
    RunState α :=
  let chosen :=
    ((raceChoice st.events.length).filter (fun j => decide (j ∈ st.executing))).dedup
  let chosen2 := if chosen = [] then st.executing.take 1 else chosen
  chosen2.foldl (applyOutcome outcomes stopAfter) st

def CONCURRENCY_LIMIT : ℕ := 2

/-- The dispatch loop of processQueue (lines 296-347) over the ids of
the selected units: check the stop signal (break when set), start the
unit's task, and once the executing set has reached the concurrency
limit await Promise.race before dispatching further. -/
def dispatchLoop {α : Type} (outcomes : ℕ → Except String α)
    (stopAfter : Option ℕ) (raceChoice : ℕ → List ℕ) :
    List ℕ → RunState α → RunState α
  | [], st => st
  | i :: rest, st =>
    if stopFlag stopAfter st.events.length then st
    else
      let st2 := { st with
        executing := st.executing ++ [i],
        events := st.events ++ [Ev.dispatch i],
        sizes := st.sizes ++ [(st.executing ++ [i]).length] }
      let st3 :=
        if CONCURRENCY_LIMIT ≤ st2.executing.length then
          raceStep outcomes stopAfter raceChoice st2
        else st2
      dispatchLoop outcomes stopAfter raceChoice rest st3

/-- `await Promise.all(executing)` (line 349): every still-outstanding
task settles, each through the same stop-checked continuation. -/
def drainAll {α : Type} (outcomes : ℕ → Except String α)
    (stopAfter : Option ℕ) (st : RunState α) : RunState α :=
  st.executing.foldl (applyOutcome outcomes stopAfter) st

/-- The work selection of a run (line 267): units whose status is IDLE
or QUEUED, in their existing order. -/
def selectSegments {α : Type} (segs : List (Seg α)) : List (Seg α) :=
  segs.filter (fun s =>
    decide (s.status = SegmentStatus.IDLE ∨ s.status = SegmentStatus.QUEUED))

/-- Lines 275-286: every selected unit is marked PROCESSING with its
error cleared, before any dispatch. -/
def markSelected {α : Type} (segs : List (Seg α)) : List (Seg α) :=
  segs.map (fun s =>
    if (selectSegments segs).any (fun sp => sp.id == s.id) then
      { s with status := SegmentStatus.PROCESSING, error := none }
    else s)

/-- One full processQueue run (lines 260-356), driven by the outcome
oracle (the settled result of each unit's synthesis task), the
stop-signal time and the race-settlement oracle: select IDLE/QUEUED
units; when none, return with running cleared; otherwise mark them
PROCESSING, set progress 0/total, run the bounded dispatch loop, await
all outstanding tasks, then clear running and reset progress to 0/0. -/
def processQueue {α : Type} (outcomes : ℕ → Except String α)
    (stopAfter : Option ℕ) (raceChoice : ℕ → List ℕ)
    (segs : List (Seg α)) : RunState α :=
  let selected := selectSegments segs
  if selected.length = 0 then
    { segs := segs, executing := [], completedCount := 0, progressCur := 0,
      progressTotal := 0, running := false, events := [], sizes := [],
      progressHistory := [] }
  else
    let st0 : RunState α := {
      segs := markSelected segs, executing := [], completedCount := 0,
      progressCur := 0, progressTotal := selected.length, running := true,
      events := [], sizes := [], progressHistory := [] }
    let st1 := dispatchLoop outcomes stopAfter raceChoice
      (selected.map (fun s => s.id)) st0
    let st2 := drainAll outcomes stopAfter st1
    { st2 with running := false, progressCur := 0, progressTotal := 0 }

/-- The per-project flags touched by handleStop. -/
structure JobFlags where
  running : Bool
  stopSignal : Bool
  deriving DecidableEq

/-- handleStop (lines 358-361): set the project's stop signal and clear
the running flag immediately, without waiting for outstanding tasks. -/
def handleStop (_j : JobFlags) : JobFlags :=
  { running := false, stopSignal := true }

/-- SegmentList renders the manual retry button exactly when the
segment's status is ERROR (src/components/SegmentList.tsx, line 50). -/
def retryAvailable {α : Type} (s : Seg α) : Bool :=
  decide (s.status = SegmentStatus.ERROR)

/-- handleDeleteSegment (src/App.tsx, lines 384-389): keep exactly the
segments with a different id. -/
def handleDeleteSegment {α : Type} (segs : List (Seg α)) (i : ℕ) :
    List (Seg α) :=
  segs.filter (fun s => decide (s.id ≠ i))

/-! ### Scheduler lemmas -/

lemma filter_ne_length_le {l : List ℕ} {i : ℕ} :
    (l.filter (fun j => decide (j ≠ i))).length ≤ l.length :=
  List.length_filter_le _ _

lemma filter_ne_length_lt {l : List ℕ} {i : ℕ} (h : i ∈ l) :
    (l.filter (fun j => decide (j ≠ i))).length < l.length := by
  induction l with
  | nil => cases h
  | cons a tl ih =>
    by_cases ha : a = i
    · subst ha
      rw [List.filter_cons_of_neg (by simp)]
      exact Nat.lt_succ_of_le (List.length_filter_le _ _)
    · rw [List.filter_cons_of_pos (by simp [ha])]
      rcases List.mem_cons.mp h with h | h
      · exact absurd h.symm ha
      · simpa using ih h

lemma applyOutcome_executing {α : Type} (o : ℕ → Except String α)
    (sa : Option ℕ) (st : RunState α) (i : ℕ) :
    (applyOutcome o sa st i).executing =
      st.executing.filter (fun j => decide (j ≠ i)) := by
  unfold applyOutcome
  cases hstp : stopFlag sa (st.events.length + 1) <;> cases ho : o i <;>
    simp [hstp, ho]

lemma applyOutcome_events {α : Type} (o : ℕ → Except String α)
    (sa : Option ℕ) (st : RunState α) (i : ℕ) :
    (applyOutcome o sa st i).events =
      st.events ++ [Ev.settle i (!stopFlag sa (st.events.length + 1))] := by
  unfold applyOutcome
  cases hstp : stopFlag sa (st.events.length + 1) <;> cases ho : o i <;>
    simp [hstp, ho]

lemma applyOutcome_sizes {α : Type} (o : ℕ → Except String α)
    (sa : Option ℕ) (st : RunState α) (i : ℕ) :
    (applyOutcome o sa st i).sizes =
      st.sizes ++ [(st.executing.filter (fun j => decide (j ≠ i))).length] := by
  unfold applyOutcome
  cases hstp : stopFlag sa (st.events.length + 1) <;> cases ho : o i <;>
    simp [hstp, ho]

lemma foldl_applyOutcome_bound {α : Type} (o : ℕ → Except String α)
    (sa : Option ℕ) :
    ∀ (l : List ℕ) (st : RunState α),
      st.executing.length ≤ 2 → (∀ x ∈ st.sizes, x ≤ 2) →
      (l.foldl (applyOutcome o sa) st).executing.length ≤ st.executing.length ∧
      ∀ x ∈ (l.foldl (applyOutcome o sa) st).sizes, x ≤ 2
  | [], st, _hex, hsz => ⟨le_refl _, hsz⟩
  | i :: rest, st, hex, hsz => by
    rw [List.foldl_cons]
    have hex2 : (applyOutcome o sa st i).executing.length ≤ st.executing.length := by
      rw [applyOutcome_executing]
      exact filter_ne_length_le
    have hsz2 : ∀ x ∈ (applyOutcome o sa st i).sizes, x ≤ 2 := by
      rw [applyOutcome_sizes]
      intro x hx
      rcases List.mem_append.mp hx with hx | hx
      · exact hsz x hx
      · rcases List.mem_singleton.mp hx with rfl
        exact le_trans filter_ne_length_le hex
    have ih := foldl_applyOutcome_bound o sa rest (applyOutcome o sa st i)
      (le_trans hex2 hex) hsz2
    exact ⟨le_trans ih.1 hex2, ih.2⟩

lemma raceStep_bound {α : Type} (o : ℕ → Except String α) (sa : Option ℕ)
    (rc : ℕ → List ℕ) (st : RunState α) (hex : st.executing.length = 2)
    (hsz : ∀ x ∈ st.sizes, x ≤ 2) :
    (raceStep o sa rc st).executing.length ≤ 1 ∧
    ∀ x ∈ (raceStep o sa rc st).sizes, x ≤ 2 := by
  unfold raceStep
  dsimp only
  set chosen := ((rc st.events.length).filter
    (fun j => decide (j ∈ st.executing))).dedup with hch
  have hne : st.executing ≠ [] := by
    intro h
    rw [h] at hex
    simp at hex
  obtain ⟨c, cs, hcons, hcmem⟩ :
      ∃ c cs, (if chosen = [] then st.executing.take 1 else chosen) = c :: cs ∧
        c ∈ st.executing := by
    by_cases hempty : chosen = []
    · rw [if_pos hempty]
      obtain ⟨a, tl, ha⟩ := List.exists_cons_of_ne_nil hne
      exact ⟨a, [], by rw [ha]; rfl, by rw [ha]; exact List.mem_cons_self _ _⟩
    · rw [if_neg hempty]
      obtain ⟨c, cs, hc⟩ := List.exists_cons_of_ne_nil hempty
      refine ⟨c, cs, hc, ?_⟩
      have : c ∈ chosen := by rw [hc]; exact List.mem_cons_self _ _
      rw [hch] at this
      have := List.mem_dedup.mp this
      have := List.of_mem_filter this
      simpa using this
  rw [hcons, List.foldl_cons]
  have hlt : (applyOutcome o sa st c).executing.length < 2 := by
    rw [applyOutcome_executing]
    calc (st.executing.filter (fun j => decide (j ≠ c))).length
        < st.executing.length := filter_ne_length_lt hcmem
      _ = 2 := hex
  have hsz2 : ∀ x ∈ (applyOutcome o sa st c).sizes, x ≤ 2 := by
    rw [applyOutcome_sizes]
    intro x hx
    rcases List.mem_append.mp hx with hx | hx
    · exact hsz x hx
    · rcases List.mem_singleton.mp hx with rfl
      rw [← hex]
      exact filter_ne_length_le
  have h := foldl_applyOutcome_bound o sa cs (applyOutcome o sa st c)
    (by omega) hsz2
  exact ⟨by omega, h.2⟩

lemma dispatchLoop_bound {α : Type} (o : ℕ → Except String α)
    (sa : Option ℕ) (rc : ℕ → List ℕ) :
    ∀ (l : List ℕ) (st : RunState α),
      st.executing.length ≤ 1 → (∀ x ∈ st.sizes, x ≤ 2) →
      (dispatchLoop o sa rc l st).executing.length ≤ 1 ∧
      ∀ x ∈ (dispatchLoop o sa rc l st).sizes, x ≤ 2
  | [], _st, hex, hsz => ⟨hex, hsz⟩
  | i :: rest, st, hex, hsz => by
    rw [dispatchLoop]
    by_cases hstp : stopFlag sa st.events.length
    · rw [if_pos hstp]
      exact ⟨hex, hsz⟩
    · rw [if_neg hstp]
      simp only
      set st2 : RunState α := { st with
        executing := st.executing ++ [i],
        events := st.events ++ [Ev.dispatch i],
        sizes := st.sizes ++ [(st.executing ++ [i]).length] } with hst2
      have hex2 : st2.executing.length ≤ 2 := by
        rw [hst2]
        simp only [List.length_append, List.length_singleton]
        omega
      have hsz2 : ∀ x ∈ st2.sizes, x ≤ 2 := by
        rw [hst2]
        intro x hx
        rcases List.mem_append.mp hx with hx | hx
        · exact hsz x hx
        · rcases List.mem_singleton.mp hx with rfl
          simp only [List.length_append, List.length_singleton]
          omega
      by_cases hc : CONCURRENCY_LIMIT ≤ st2.executing.length
      · rw [if_pos hc]
        have hex2e : st2.executing.length = 2 := by
          have : CONCURRENCY_LIMIT = 2 := rfl
          omega
        have hr := raceStep_bound o sa rc st2 hex2e hsz2
        exact dispatchLoop_bound o sa rc rest _ hr.1 hr.2
      · rw [if_neg hc]
        have : st2.executing.length ≤ 1 := by
          have : CONCURRENCY_LIMIT = 2 := rfl
          omega
        exact dispatchLoop_bound o sa rc rest st2 this hsz2

/-- Claim C5: in every scheduling run, over any number of selected
units and any settlement order, any task outcomes and any stop time,
every recorded cardinality of the outstanding-task set is at most the
concurrency limit 2: before dispatching when 2 tasks are outstanding,
the loop waits for at least one of them to settle. -/
theorem C5_concurrency_bound {α : Type} (outcomes : ℕ → Except String α)
    (stopAfter : Option ℕ) (raceChoice : ℕ → List ℕ) (segs : List (Seg α))
    (x : ℕ) (hx : x ∈ (processQueue outcomes stopAfter raceChoice segs).sizes) :
    x ≤ 2 := by
  unfold processQueue at hx
  by_cases hsel : (selectSegments segs).length = 0
  · rw [if_pos hsel] at hx
    simp at hx
  · rw [if_neg hsel] at hx
    simp only at hx
    set st0 : RunState α := {
      segs := markSelected segs, executing := [], completedCount := 0,
      progressCur := 0, progressTotal := (selectSegments segs).length,
      running := true, events := [], sizes := [], progressHistory := [] }
      with hst0
    have h1 := dispatchLoop_bound outcomes stopAfter raceChoice
      ((selectSegments segs).map (fun s => s.id)) st0
      (by rw [hst0]; simp) (by rw [hst0]; simp)
    have h2 := foldl_applyOutcome_bound outcomes stopAfter
      (dispatchLoop outcomes stopAfter raceChoice
        ((selectSegments segs).map (fun s => s.id)) st0).executing
      (dispatchLoop outcomes stopAfter raceChoice
        ((selectSegments segs).map (fun s => s.id)) st0)
      (by omega) h1.2
    exact h2.2 x hx

/-- Claim C5, witness: a run over three units records outstanding-set
cardinalities 1, 2, 1, 2, 1, 0 — all within the bound. -/
theorem C5_witness :
    2 ∈ (processQueue (fun _ => Except.ok "u") none (fun _ => [])
        [⟨0, SegmentStatus.IDLE, none, none, 1⟩,
         ⟨1, SegmentStatus.IDLE, none, none, 1⟩,
         ⟨2, SegmentStatus.IDLE, none, none, 1⟩]).sizes ∧
    (2 : ℕ) ≤ 2 :=
  ⟨by decide,
   C5_concurrency_bound (fun _ => Except.ok "u") none (fun _ => [])
    [⟨0, SegmentStatus.IDLE, none, none, 1⟩,
     ⟨1, SegmentStatus.IDLE, none, none, 1⟩,
     ⟨2, SegmentStatus.IDLE, none, none, 1⟩] 2 (by decide)⟩

lemma stopFlag_le {t n : ℕ} (h : t ≤ n) : stopFlag (some t) n = true := by
  simp [stopFlag, h]

lemma applyOutcome_frozen {α : Type} (o : ℕ → Except String α)
    (sa : Option ℕ) (st : RunState α) (i : ℕ)
    (hstp : stopFlag sa (st.events.length + 1) = true) :
    (applyOutcome o sa st i).segs = st.segs ∧
    (applyOutcome o sa st i).progressHistory = st.progressHistory := by
  unfold applyOutcome
  simp [hstp]

lemma foldl_applyOutcome_frozen {α : Type} (o : ℕ → Except String α)
    (t : ℕ) (ht : t ≤ 2) :
    ∀ (l : List ℕ) (st : RunState α), (l = [] ∨ 1 ≤ st.events.length) →
      (l.foldl (applyOutcome o (some t)) st).segs = st.segs ∧
      (l.foldl (applyOutcome o (some t)) st).progressHistory = st.progressHistory
  | [], _st, _h => ⟨rfl, rfl⟩
  | i :: rest, st, h => by
    rw [List.foldl_cons]
    have hlen : 1 ≤ st.events.length := by
      rcases h with h | h
      · exact absurd h (by simp)
      · exact h
    have hstp : stopFlag (some t) (st.events.length + 1) = true :=
      stopFlag_le (by omega)
    have hf := applyOutcome_frozen o (some t) st i hstp
    have hev : (applyOutcome o (some t) st i).events.length =
        st.events.length + 1 := by
      rw [applyOutcome_events]
      simp
    have ih := foldl_applyOutcome_frozen o t ht rest (applyOutcome o (some t) st i)
      (Or.inr (by omega))
    exact ⟨ih.1.trans hf.1, ih.2.trans hf.2⟩

lemma raceStep_frozen {α : Type} (o : ℕ → Except String α) (rc : ℕ → List ℕ)
    (t : ℕ) (ht : t ≤ 2) (st : RunState α) (h1 : 1 ≤ st.events.length) :
    (raceStep o (some t) rc st).segs = st.segs ∧
    (raceStep o (some t) rc st).progressHistory = st.progressHistory := by
  unfold raceStep
  dsimp only
  exact foldl_applyOutcome_frozen o t ht _ st (Or.inr h1)

lemma dispatchLoop_frozen {α : Type} (o : ℕ → Except String α)
    (rc : ℕ → List ℕ) (t : ℕ) (ht : t ≤ 2) :
    ∀ (l : List ℕ) (st : RunState α),
      (dispatchLoop o (some t) rc l st).segs = st.segs ∧
      (dispatchLoop o (some t) rc l st).progressHistory = st.progressHistory
  | [], _st => ⟨rfl, rfl⟩
  | i :: rest, st => by
    rw [dispatchLoop]
    by_cases hstp : stopFlag (some t) st.events.length
    · rw [if_pos hstp]
      exact ⟨rfl, rfl⟩
    · rw [if_neg hstp]
      dsimp only
      set st2 : RunState α := { st with
        executing := st.executing ++ [i],
        events := st.events ++ [Ev.dispatch i],
        sizes := st.sizes ++ [(st.executing ++ [i]).length] } with hst2
      have hev2 : 1 ≤ st2.events.length := by
        rw [hst2]
        simp
      by_cases hc : CONCURRENCY_LIMIT ≤ st2.executing.length
      · rw [if_pos hc]
        have hr := raceStep_frozen o rc t ht st2 hev2
        have ih := dispatchLoop_frozen o rc t ht rest (raceStep o (some t) rc st2)
        exact ⟨ih.1.trans hr.1, ih.2.trans hr.2⟩
      · rw [if_neg hc]
        exact dispatchLoop_frozen o rc t ht rest st2

lemma applyOutcome_execle {α : Type} (o : ℕ → Except String α)
    (sa : Option ℕ) (st : RunState α) (i : ℕ)
    (h : st.executing.length ≤ st.events.length) :
    (applyOutcome o sa st i).executing.length ≤
      (applyOutcome o sa st i).events.length := by
  rw [applyOutcome_executing, applyOutcome_events]
  simp only [List.length_append, List.length_singleton]
  have hf : (st.executing.filter (fun j => decide (j ≠ i))).length ≤
      st.executing.length := filter_ne_length_le
  omega

lemma foldl_applyOutcome_execle {α : Type} (o : ℕ → Except String α)
    (sa : Option ℕ) :
    ∀ (l : List ℕ) (st : RunState α),
      st.executing.length ≤ st.events.length →
      (l.foldl (applyOutcome o sa) st).executing.length ≤
        (l.foldl (applyOutcome o sa) st).events.length
  | [], _st, h => h
  | i :: rest, st, h => by
    rw [List.foldl_cons]
    exact foldl_applyOutcome_execle o sa rest _ (applyOutcome_execle o sa st i h)

lemma dispatchLoop_execle {α : Type} (o : ℕ → Except String α)
    (sa : Option ℕ) (rc : ℕ → List ℕ) :
    ∀ (l : List ℕ) (st : RunState α),
      st.executing.length ≤ st.events.length →
      (dispatchLoop o sa rc l st).executing.length ≤
        (dispatchLoop o sa rc l st).events.length
  | [], _st, h => h
  | i :: rest, st, h => by
    rw [dispatchLoop]
    by_cases hstp : stopFlag sa st.events.length
    · rw [if_pos hstp]
      exact h
    · rw [if_neg hstp]
      dsimp only
      set st2 : RunState α := { st with
        executing := st.executing ++ [i],
        events := st.events ++ [Ev.dispatch i],
        sizes := st.sizes ++ [(st.executing ++ [i]).length] } with hst2
      have h2 : st2.executing.length ≤ st2.events.length := by
        rw [hst2]
        simp only [List.length_append, List.length_singleton]
        omega
      by_cases hc : CONCURRENCY_LIMIT ≤ st2.executing.length
      · rw [if_pos hc]
        refine dispatchLoop_execle o sa rc rest _ ?_
        unfold raceStep
        dsimp only
        exact foldl_applyOutcome_execle o sa _ st2 h2
      · rw [if_neg hc]
        exact dispatchLoop_execle o sa rc rest st2 h2

lemma markSelected_of_empty {α : Type} (segs : List (Seg α))
    (h : selectSegments segs = []) : markSelected segs = segs := by
  unfold markSelected
  rw [h]
  simp

/-- Claim C6: if the stop signal is set within the first two run events
— before any dispatched task can have resolved, since the earliest
settlement is preceded by its dispatch and is checked against at least
two elapsed events — then no unit transitions to COMPLETED or ERROR in
that run (the segment list stays exactly as the initial PROCESSING
marking left it), the progress counter is never advanced, progress ends
reset to 0/0 with running cleared; and the stop action itself clears
the running flag immediately while setting the stop signal. -/
theorem C6_cancellation {α : Type} (outcomes : ℕ → Except String α)
    (raceChoice : ℕ → List ℕ) (segs : List (Seg α)) (t : ℕ) (ht : t ≤ 2)
    (j : JobFlags) :
    (processQueue outcomes (some t) raceChoice segs).segs = markSelected segs ∧
    (processQueue outcomes (some t) raceChoice segs).progressHistory = [] ∧
    (processQueue outcomes (some t) raceChoice segs).progressCur = 0 ∧
    (processQueue outcomes (some t) raceChoice segs).progressTotal = 0 ∧
    (processQueue outcomes (some t) raceChoice segs).running = false ∧
    (handleStop j).running = false ∧ (handleStop j).stopSignal = true := by
  unfold processQueue
  by_cases hsel : (selectSegments segs).length = 0
  · rw [if_pos hsel]
    refine ⟨?_, rfl, rfl, rfl, rfl, rfl, rfl⟩
    exact (markSelected_of_empty segs (List.length_eq_zero.mp hsel)).symm
  · rw [if_neg hsel]
    dsimp only
    set st0 : RunState α := {
      segs := markSelected segs, executing := [], completedCount := 0,
      progressCur := 0, progressTotal := (selectSegments segs).length,
      running := true, events := [], sizes := [], progressHistory := [] }
      with hst0
    set st1 := dispatchLoop outcomes (some t) raceChoice
      ((selectSegments segs).map (fun s => s.id)) st0 with hst1
    have hloop := dispatchLoop_frozen outcomes raceChoice t ht
      ((selectSegments segs).map (fun s => s.id)) st0
    have hle : st1.executing.length ≤ st1.events.length := by
      rw [hst1]
      exact dispatchLoop_execle outcomes (some t) raceChoice _ st0 (by rw [hst0]; simp)
    have hdr : st1.executing = [] ∨ 1 ≤ st1.events.length := by
      by_cases h : st1.executing = []
      · exact Or.inl h
      · right
        have := List.length_pos.mpr h
        omega
    have hdrain := foldl_applyOutcome_frozen outcomes t ht st1.executing st1 hdr
    unfold drainAll
    refine ⟨?_, ?_, rfl, rfl, rfl, rfl, rfl⟩
    · rw [hdrain.1, hst1, hloop.1]
    · rw [hdrain.2, hst1, hloop.2]

/-- Claim C6, witness: stopping at run-event 2 (after both initial
dispatches, before any settlement is committed) leaves all three
selected units PROCESSING with no progress recorded. -/
theorem C6_witness :
    (2 : ℕ) ≤ 2 ∧
    (processQueue (fun _ => Except.ok "u") (some 2) (fun _ => [])
        [⟨0, SegmentStatus.IDLE, none, none, 1⟩,
         ⟨1, SegmentStatus.IDLE, none, none, 1⟩,
         ⟨2, SegmentStatus.IDLE, none, none, 1⟩]).segs =
      markSelected
        [⟨0, SegmentStatus.IDLE, none, none, 1⟩,
         ⟨1, SegmentStatus.IDLE, none, none, 1⟩,
         ⟨2, SegmentStatus.IDLE, none, none, 1⟩] ∧
    (processQueue (fun _ => Except.ok "u") (some 2) (fun _ => [])
        [⟨0, SegmentStatus.IDLE, none, none, 1⟩,
         ⟨1, SegmentStatus.IDLE, none, none, 1⟩,
         ⟨2, SegmentStatus.IDLE, none, none, 1⟩]).progressHistory = [] :=
  ⟨by decide,
   (C6_cancellation (fun _ => Except.ok "u") (fun _ => [])
      [⟨0, SegmentStatus.IDLE, none, none, 1⟩,
       ⟨1, SegmentStatus.IDLE, none, none, 1⟩,
       ⟨2, SegmentStatus.IDLE, none, none, 1⟩] 2 (by decide)
      ⟨true, false⟩).1,
   (C6_cancellation (fun _ => Except.ok "u") (fun _ => [])
      [⟨0, SegmentStatus.IDLE, none, none, 1⟩,
       ⟨1, SegmentStatus.IDLE, none, none, 1⟩,
       ⟨2, SegmentStatus.IDLE, none, none, 1⟩] 2 (by decide)
      ⟨true, false⟩).2.1⟩

lemma applyOutcome_segs_commit {α : Type} (o : ℕ → Except String α)
    (sa : Option ℕ) (st : RunState α) (j : ℕ)
    (hstp : stopFlag sa (st.events.length + 1) = false) :
    (applyOutcome o sa st j).segs = st.segs.map (fun s : Seg α =>
      if s.id = j then
        (match o j with
         | Except.ok url =>
             { s with status := SegmentStatus.COMPLETED, audioUrl := some url }
         | Except.error e =>
             { s with status := SegmentStatus.ERROR, error := some e })
      else s) := by
  unfold applyOutcome
  cases ho : o j <;> simp [hstp, ho]

lemma applyOutcome_events_mono {α : Type} {x : Ev} (o : ℕ → Except String α)
    (sa : Option ℕ) (st : RunState α) (j : ℕ) (h : x ∈ st.events) :
    x ∈ (applyOutcome o sa st j).events := by
  rw [applyOutcome_events]
  exact List.mem_append_left _ h

lemma foldl_applyOutcome_events_mono {α : Type} {x : Ev}
    (o : ℕ → Except String α) (sa : Option ℕ) :
    ∀ (l : List ℕ) (st : RunState α), x ∈ st.events →
      x ∈ (l.foldl (applyOutcome o sa) st).events
  | [], _st, h => h
  | j :: rest, st, h => by
    rw [List.foldl_cons]
    exact foldl_applyOutcome_events_mono o sa rest _
      (applyOutcome_events_mono o sa st j h)

lemma dispatchLoop_events_mono {α : Type} {x : Ev} (o : ℕ → Except String α)
    (sa : Option ℕ) (rc : ℕ → List ℕ) :
    ∀ (l : List ℕ) (st : RunState α), x ∈ st.events →
      x ∈ (dispatchLoop o sa rc l st).events
  | [], _st, h => h
  | j :: rest, st, h => by
    rw [dispatchLoop]
    by_cases hstp : stopFlag sa st.events.length
    · rw [if_pos hstp]
      exact h
    · rw [if_neg hstp]
      dsimp only
      set st2 : RunState α := { st with
        executing := st.executing ++ [j],
        events := st.events ++ [Ev.dispatch j],
        sizes := st.sizes ++ [(st.executing ++ [j]).length] } with hst2
      have h2 : x ∈ st2.events := by
        rw [hst2]
        exact List.mem_append_left _ h
      by_cases hc : CONCURRENCY_LIMIT ≤ st2.executing.length
      · rw [if_pos hc]
        refine dispatchLoop_events_mono o sa rc rest _ ?_
        unfold raceStep
        dsimp only
        exact foldl_applyOutcome_events_mono o sa _ st2 h2
      · rw [if_neg hc]
        exact dispatchLoop_events_mono o sa rc rest st2 h2

lemma applyOutcome_keeps_PROCESSING {α : Type} (o : ℕ → Except String α)
    (sa : Option ℕ) (st : RunState α) (i j : ℕ)
    (hij : stopFlag sa (st.events.length + 1) = true ∨ j ≠ i)
    (hPi : ∀ s ∈ st.segs, s.id = i → s.status = SegmentStatus.PROCESSING) :
    ∀ s ∈ (applyOutcome o sa st j).segs, s.id = i →
      s.status = SegmentStatus.PROCESSING := by
  by_cases hstp : stopFlag sa (st.events.length + 1) = true
  · intro s hs
    rw [(applyOutcome_frozen o sa st j hstp).1] at hs
    exact hPi s hs
  · have hji : j ≠ i := by
      rcases hij with h | h
      · exact absurd h hstp
      · exact h
    have hstp' : stopFlag sa (st.events.length + 1) = false :=
      Bool.eq_false_iff.mpr hstp
    rw [applyOutcome_segs_commit o sa st j hstp']
    intro s hs hid
    obtain ⟨s0, hs0, rfl⟩ := List.mem_map.mp hs
    by_cases h0 : s0.id = j
    · exfalso
      rw [if_pos h0] at hid
      cases ho : o j <;> rw [ho] at hid <;> simp at hid <;> exact hji (h0 ▸ hid ▸ rfl)
    · rw [if_neg h0] at hid ⊢
      exact hPi s0 hs0 hid

lemma foldl_applyOutcome_Pi {α : Type} (o : ℕ → Except String α)
    (sa : Option ℕ) (i : ℕ) :
    ∀ (l : List ℕ) (st : RunState α),
      Ev.settle i true ∉ (l.foldl (applyOutcome o sa) st).events →
      (∀ s ∈ st.segs, s.id = i → s.status = SegmentStatus.PROCESSING) →
      ∀ s ∈ (l.foldl (applyOutcome o sa) st).segs, s.id = i →
        s.status = SegmentStatus.PROCESSING
  | [], _st, _hne, hPi => hPi
  | j :: rest, st, hne, hPi => by
    rw [List.foldl_cons] at hne ⊢
    refine foldl_applyOutcome_Pi o sa i rest _ hne ?_
    refine applyOutcome_keeps_PROCESSING o sa st i j ?_ hPi
    by_cases hstp : stopFlag sa (st.events.length + 1) = true
    · exact Or.inl hstp
    · right
      intro hji
      subst hji
      apply hne
      have hstp' : stopFlag sa (st.events.length + 1) = false :=
        Bool.eq_false_iff.mpr hstp
      have hmem : Ev.settle j true ∈ (applyOutcome o sa st j).events := by
        rw [applyOutcome_events, hstp']
        simp
      exact foldl_applyOutcome_events_mono o sa rest _ hmem

lemma dispatchLoop_Pi {α : Type} (o : ℕ → Except String α) (sa : Option ℕ)
    (rc : ℕ → List ℕ) (i : ℕ) :
    ∀ (l : List ℕ) (st : RunState α),
      Ev.settle i true ∉ (dispatchLoop o sa rc l st).events →
      (∀ s ∈ st.segs, s.id = i → s.status = SegmentStatus.PROCESSING) →
      ∀ s ∈ (dispatchLoop o sa rc l st).segs, s.id = i →
        s.status = SegmentStatus.PROCESSING
  | [], _st, _hne, hPi => hPi
  | j :: rest, st, hne, hPi => by
    rw [dispatchLoop] at hne ⊢
    by_cases hstp : stopFlag sa st.events.length
    · rw [if_pos hstp] at hne ⊢
      exact hPi
    · rw [if_neg hstp] at hne ⊢
      dsimp only at hne ⊢
      set st2 : RunState α := { st with
        executing := st.executing ++ [j],
        events := st.events ++ [Ev.dispatch j],
        sizes := st.sizes ++ [(st.executing ++ [j]).length] } with hst2
      by_cases hc : CONCURRENCY_LIMIT ≤ st2.executing.length
      · rw [if_pos hc] at hne ⊢
        refine dispatchLoop_Pi o sa rc i rest _ hne ?_
        have hne2 : Ev.settle i true ∉ (raceStep o sa rc st2).events := by
          intro hmem
          exact hne (dispatchLoop_events_mono o sa rc rest _ hmem)
        unfold raceStep at hne2 ⊢
        dsimp only at hne2 ⊢
        exact foldl_applyOutcome_Pi o sa i _ st2 hne2 hPi
      · rw [if_neg hc] at hne ⊢
        exact dispatchLoop_Pi o sa rc i rest st2 hne hPi

lemma applyOutcome_dispatch_mem {α : Type} {k : ℕ} (o : ℕ → Except String α)
    (sa : Option ℕ) (st : RunState α) (j : ℕ)
    (h : Ev.dispatch k ∈ (applyOutcome o sa st j).events) :
    Ev.dispatch k ∈ st.events := by
  rw [applyOutcome_events] at h
  rcases List.mem_append.mp h with h | h
  · exact h
  · rcases List.mem_singleton.mp h with h
    cases h

lemma foldl_applyOutcome_dispatch_mem {α : Type} {k : ℕ}
    (o : ℕ → Except String α) (sa : Option ℕ) :
    ∀ (l : List ℕ) (st : RunState α),
      Ev.dispatch k ∈ (l.foldl (applyOutcome o sa) st).events →
      Ev.dispatch k ∈ st.events
  | [], _st, h => h
  | j :: rest, st, h => by
    rw [List.foldl_cons] at h
    exact applyOutcome_dispatch_mem o sa st j
      (foldl_applyOutcome_dispatch_mem o sa rest _ h)

lemma dispatchLoop_dispatch_mem {α : Type} {k : ℕ} (o : ℕ → Except String α)
    (sa : Option ℕ) (rc : ℕ → List ℕ) :
    ∀ (l : List ℕ) (st : RunState α),
      Ev.dispatch k ∈ (dispatchLoop o sa rc l st).events →
      Ev.dispatch k ∈ st.events ∨ k ∈ l
  | [], _st, h => Or.inl h
  | j :: rest, st, h => by
    rw [dispatchLoop] at h
    by_cases hstp : stopFlag sa st.events.length
    · rw [if_pos hstp] at h
      exact Or.inl h
    · rw [if_neg hstp] at h
      dsimp only at h
      set st2 : RunState α := { st with
        executing := st.executing ++ [j],
        events := st.events ++ [Ev.dispatch j],
        sizes := st.sizes ++ [(st.executing ++ [j]).length] } with hst2
      have split2 : Ev.dispatch k ∈ st2.events → Ev.dispatch k ∈ st.events ∨ k ∈ j :: rest := by
        intro h2
        rw [hst2] at h2
        rcases List.mem_append.mp h2 with h2 | h2
        · exact Or.inl h2
        · rcases List.mem_singleton.mp h2 with h2
          cases h2
          exact Or.inr (List.mem_cons_self _ _)
      by_cases hc : CONCURRENCY_LIMIT ≤ st2.executing.length
      · rw [if_pos hc] at h
        rcases dispatchLoop_dispatch_mem o sa rc rest _ h with h | h
        · have : Ev.dispatch k ∈ st2.events := by
            unfold raceStep at h
            dsimp only at h
            exact foldl_applyOutcome_dispatch_mem o sa _ st2 h
          exact split2 this
        · exact Or.inr (List.mem_cons_of_mem _ h)
      · rw [if_neg hc] at h
        rcases dispatchLoop_dispatch_mem o sa rc rest st2 h with h | h
        · exact split2 h
        · exact Or.inr (List.mem_cons_of_mem _ h)

lemma mem_selectSegments_status {α : Type} {segs : List (Seg α)} {s : Seg α}
    (h : s ∈ selectSegments segs) :
    s.status = SegmentStatus.IDLE ∨ s.status = SegmentStatus.QUEUED := by
  have := List.of_mem_filter h
  simpa using this

/-- Claim C10: a selected unit whose task settlement was never committed
(every arriving outcome discarded by the stop signal) ends the run with
status PROCESSING; a scheduling run selects only IDLE/QUEUED units, so a
PROCESSING unit is never part of any later run's selection and every
dispatched id of a run belongs to its selection; the manual retry
button exists exactly for ERROR units; deleting a unit removes every
segment with its id. -/
theorem C10_inflight_stranded {α : Type} (outcomes : ℕ → Except String α)
    (stopAfter : Option ℕ) (raceChoice : ℕ → List ℕ)
    (segs segs2 : List (Seg α)) (i k : ℕ)
    (hsel : ∀ s ∈ segs, s.id = i →
      s.status = SegmentStatus.IDLE ∨ s.status = SegmentStatus.QUEUED)
    (hdisc : Ev.settle i true ∉
      (processQueue outcomes stopAfter raceChoice segs).events) :
    (∀ s ∈ (processQueue outcomes stopAfter raceChoice segs).segs,
        s.id = i → s.status = SegmentStatus.PROCESSING) ∧
    (∀ s ∈ selectSegments segs2,
        s.status = SegmentStatus.IDLE ∨ s.status = SegmentStatus.QUEUED) ∧
    (∀ s : Seg α, s.status = SegmentStatus.PROCESSING → s ∉ selectSegments segs2) ∧
    (∀ m, Ev.dispatch m ∈ (processQueue outcomes stopAfter raceChoice segs2).events →
        m ∈ (selectSegments segs2).map (fun s => s.id)) ∧
    (∀ s : Seg α, retryAvailable s = true ↔ s.status = SegmentStatus.ERROR) ∧
    (∀ s ∈ handleDeleteSegment segs2 k, s.id ≠ k) := by
  refine ⟨?_, ?_, ?_, ?_, ?_, ?_⟩
  · unfold processQueue at hdisc ⊢
    by_cases hs : (selectSegments segs).length = 0
    · rw [if_pos hs] at hdisc ⊢
      intro s hmem hid
      exfalso
      have hstat := hsel s hmem hid
      have : s ∈ selectSegments segs := by
        unfold selectSegments
        exact List.mem_filter.mpr ⟨hmem, by simpa using hstat⟩
      rw [List.length_eq_zero.mp hs] at this
      cases this
    · rw [if_neg hs] at hdisc ⊢
      dsimp only at hdisc ⊢
      set st0 : RunState α := {
        segs := markSelected segs, executing := [], completedCount := 0,
        progressCur := 0, progressTotal := (selectSegments segs).length,
        running := true, events := [], sizes := [], progressHistory := [] }
        with hst0
      set st1 := dispatchLoop outcomes stopAfter raceChoice
        ((selectSegments segs).map (fun s => s.id)) st0 with hst1
      have hPi0 : ∀ s ∈ st0.segs, s.id = i →
          s.status = SegmentStatus.PROCESSING := by
        intro s hmem hid
        rw [hst0] at hmem
        dsimp only at hmem
        unfold markSelected at hmem
        obtain ⟨s0, hs0, rfl⟩ := List.mem_map.mp hmem
        by_cases hany : (selectSegments segs).any (fun sp => sp.id == s0.id)
        · rw [if_pos hany]
        · exfalso
          rw [if_neg hany] at hid
          have hstat := hsel s0 hs0 hid
          have hsmem : s0 ∈ selectSegments segs := by
            unfold selectSegments
            exact List.mem_filter.mpr ⟨hs0, by simpa using hstat⟩
          exact hany (List.any_eq_true.mpr ⟨s0, hsmem, by simp⟩)
      have hne1 : Ev.settle i true ∉ st1.events := by
        intro hmem
        exact hdisc (foldl_applyOutcome_events_mono outcomes stopAfter _ st1 hmem)
      have hPi1 := dispatchLoop_Pi outcomes stopAfter raceChoice i
        ((selectSegments segs).map (fun s => s.id)) st0 hne1 hPi0
      unfold drainAll at hdisc ⊢
      exact foldl_applyOutcome_Pi outcomes stopAfter i st1.executing st1 hdisc hPi1
  · intro s hmem
    exact mem_selectSegments_status hmem
  · intro s hstat hmem
    rcases mem_selectSegments_status hmem with h | h <;> rw [hstat] at h <;> cases h
  · intro m hmem
    unfold processQueue at hmem
    by_cases hs : (selectSegments segs2).length = 0
    · rw [if_pos hs] at hmem
      cases hmem
    · rw [if_neg hs] at hmem
      dsimp only at hmem
      unfold drainAll at hmem
      have h1 := foldl_applyOutcome_dispatch_mem outcomes stopAfter _ _ hmem
      rcases dispatchLoop_dispatch_mem outcomes stopAfter raceChoice _ _ h1 with h | h
      · cases h
      · exact h
  · intro s
    unfold retryAvailable
    simp
  · intro s hmem
    have := List.of_mem_filter hmem
    simpa using this

/-- Claim C10, witness: in a run over units 0,1,2 where the stop signal
arrives at event 4, unit 1's settlement is discarded and it stays
PROCESSING; selection, dispatch, retry and delete behave as stated. -/
theorem C10_witness :
    (∀ s ∈ (processQueue (fun _ => Except.ok "u") (some 4) (fun _ => [])
        [⟨0, SegmentStatus.IDLE, none, none, 1⟩,
         ⟨1, SegmentStatus.IDLE, none, none, 1⟩,
         ⟨2, SegmentStatus.IDLE, none, none, 1⟩]).segs,
      s.id = 1 → s.status = SegmentStatus.PROCESSING) ∧
    (∀ s ∈ selectSegments
        [(⟨3, SegmentStatus.PROCESSING, none, none, 1⟩ : Seg String)],
      s.status = SegmentStatus.IDLE ∨ s.status = SegmentStatus.QUEUED) ∧
    (∀ s : Seg String, s.status = SegmentStatus.PROCESSING →
      s ∉ selectSegments [(⟨3, SegmentStatus.PROCESSING, none, none, 1⟩ : Seg String)]) ∧
    (∀ m, Ev.dispatch m ∈ (processQueue (fun _ => Except.ok "u") (some 4) (fun _ => [])
        [(⟨3, SegmentStatus.PROCESSING, none, none, 1⟩ : Seg String)]).events →
      m ∈ (selectSegments
        [(⟨3, SegmentStatus.PROCESSING, none, none, 1⟩ : Seg String)]).map
          (fun s => s.id)) ∧
    (∀ s : Seg String, retryAvailable s = true ↔ s.status = SegmentStatus.ERROR) ∧
    (∀ s ∈ handleDeleteSegment
        [(⟨3, SegmentStatus.PROCESSING, none, none, 1⟩ : Seg String)] 3,
      s.id ≠ 3) :=
  C10_inflight_stranded (fun _ => Except.ok "u") (some 4) (fun _ => [])
    [⟨0, SegmentStatus.IDLE, none, none, 1⟩,
     ⟨1, SegmentStatus.IDLE, none, none, 1⟩,
     ⟨2, SegmentStatus.IDLE, none, none, 1⟩]
    [⟨3, SegmentStatus.PROCESSING, none, none, 1⟩] 1 3
    (by decide) (by decide)

/-! ### Merge assembler — handleExportMerged (src/App.tsx, lines 423-495) -/

/-- Outcomes of handleExportMerged: the early "No audio generated yet to
export." alert, the "No valid audio data to export." alert, the outer
catch's "Failed to merge audio files." (a fetch rejection), or the
merged container handed to the download link. -/
inductive MergeResult
  | nothingToExport
  | noValidAudio
  | mergeError
  | ok (container : List ℕ)
  deriving DecidableEq

/-- Line 424: COMPLETED segments with a truthy audioUrl, in display
order. -/
def completedSegments (segs : List (Seg String)) : List (Seg String) :=
  segs.filter (fun s =>
    decide (s.status = SegmentStatus.COMPLETED ∧ s.audioUrl.getD "" ≠ ""))

/-- The fetch-and-scale loop (lines 437-458): a falsy URL is skipped by
the `continue`; a fetch rejection aborts the whole merge through the
outer catch; a container larger than the 44-byte header contributes its
stripped — and, when |volume - 1| > 0.01, volume-scaled — payload, and a
smaller container contributes nothing. -/
def collectBuffers (fetchBytes : String → Option (List ℕ)) :
    List (Seg String) → Except Unit (List (List ℕ))
  | [] => Except.ok []
  | s :: rest =>
    if s.audioUrl.getD "" = "" then collectBuffers fetchBytes rest
    else
      match fetchBytes (s.audioUrl.getD "") with
      | none => Except.error ()
      | some arrayBuffer =>
          let contrib :=
            if 44 < arrayBuffer.length then
              [if |s.volume - 1| > 1 / 100 then
                 scaleBytes s.volume (decode arrayBuffer)
               else decode arrayBuffer]
            else []
          match collectBuffers fetchBytes rest with
          | Except.error e => Except.error e
          | Except.ok buffers => Except.ok (contrib ++ buffers)

/-- handleExportMerged: no completed segment → "nothing to export";
otherwise fetch, strip, scale and concatenate in order; an empty total
payload → "no valid audio"; a fetch rejection → the outer catch; else
the merged WAV container at the fixed 24000 Hz rate. -/
def handleExportMerged (fetchBytes : String → Option (List ℕ))
    (segs : List (Seg String)) : MergeResult :=
  if (completedSegments segs).length = 0 then MergeResult.nothingToExport
  else
    match collectBuffers fetchBytes (completedSegments segs) with
    | Except.error _ => MergeResult.mergeError
    | Except.ok buffers =>
        if buffers.flatten.length = 0 then MergeResult.noValidAudio
        else MergeResult.ok (encode buffers.flatten 24000)

/-- The contribution of one completed segment as the specification
describes it: its container's header-stripped payload, volume-scaled
exactly when the gain differs from 1 by more than 0.01. -/
def condScaled (fetchBytes : String → Option (List ℕ)) (s : Seg String) :
    List ℕ :=
  let raw := decode ((fetchBytes (s.audioUrl.getD "")).getD [])
  if |s.volume - 1| > 1 / 100 then scaleBytes s.volume raw else raw

/-- The merged payload the specification describes: in-order
concatenation of the completed segments' conditional-scaled payloads. -/
def mergePayload (fetchBytes : String → Option (List ℕ))
    (segs : List (Seg String)) : List ℕ :=
  ((completedSegments segs).map (condScaled fetchBytes)).flatten

lemma mem_completedSegments {segs : List (Seg String)} {s : Seg String}
    (h : s ∈ completedSegments segs) :
    s.status = SegmentStatus.COMPLETED ∧ s.audioUrl.getD "" ≠ "" := by
  have := List.of_mem_filter h
  simpa using this

lemma scaleBytes_length (g : ℚ) : ∀ l : List ℕ, (scaleBytes g l).length = l.length
  | [] => rfl
  | [_] => rfl
  | lo :: hi :: rest => by
    rw [scaleBytes]
    simp only [List.length_append, List.length_cons]
    rw [scaleBytes_length g rest]
    show 2 + rest.length = rest.length + 1 + 1
    omega

lemma condScaled_length (f : String → Option (List ℕ)) (s : Seg String) :
    (condScaled f s).length = ((f (s.audioUrl.getD "")).getD []).length - 44 := by
  unfold condScaled
  dsimp only
  by_cases h : |s.volume - 1| > 1 / 100
  · rw [if_pos h, scaleBytes_length]
    simp [decode]
  · rw [if_neg h]
    simp [decode]

lemma collectBuffers_eq (f : String → Option (List ℕ)) :
    ∀ l : List (Seg String),
      (∀ s ∈ l, s.audioUrl.getD "" ≠ "") →
      (∀ s ∈ l, (f (s.audioUrl.getD "")).isSome = true) →
      ∃ bufs, collectBuffers f l = Except.ok bufs ∧
        bufs.flatten = (l.map (condScaled f)).flatten
  | [], _hu, _hf => ⟨[], rfl, rfl⟩
  | s :: rest, hu, hf => by
    rw [collectBuffers]
    rw [if_neg (hu s (List.mem_cons_self _ _))]
    obtain ⟨b, hb⟩ := Option.isSome_iff_exists.mp (hf s (List.mem_cons_self _ _))
    rw [hb]
    obtain ⟨bufs, hbufs, hjoin⟩ := collectBuffers_eq f rest
      (fun x hx => hu x (List.mem_cons_of_mem _ hx))
      (fun x hx => hf x (List.mem_cons_of_mem _ hx))
    rw [hbufs]
    dsimp only
    refine ⟨_, rfl, ?_⟩
    rw [List.map_cons, List.flatten_cons, List.flatten_append, hjoin]
    by_cases hlen : 44 < b.length
    · rw [if_pos hlen]
      simp [condScaled, hb]
    · rw [if_neg hlen]
      have hnil : condScaled f s = [] := by
        have := condScaled_length f s
        rw [hb] at this
        have hz : (condScaled f s).length = 0 := by
          rw [this]
          simp only [Option.getD_some]
          omega
        exact List.length_eq_zero.mp hz
      rw [hnil]
      rfl

/-- Under successful fetches, handleExportMerged is exactly: nothing to
export when no unit qualifies, no valid audio when the specification's
merged payload is empty, and otherwise the encoded merged payload. -/
lemma handleExportMerged_eq (f : String → Option (List ℕ))
    (segs : List (Seg String))
    (hfetch : ∀ s ∈ completedSegments segs, (f (s.audioUrl.getD "")).isSome = true) :
    handleExportMerged f segs =
      if completedSegments segs = [] then MergeResult.nothingToExport
      else if mergePayload f segs = [] then MergeResult.noValidAudio
      else MergeResult.ok (encode (mergePayload f segs) 24000) := by
  unfold handleExportMerged
  by_cases h0 : (completedSegments segs).length = 0
  · rw [if_pos h0, if_pos (List.length_eq_zero.mp h0)]
  · rw [if_neg h0, if_neg (fun h => h0 (by rw [h]; rfl))]
    obtain ⟨bufs, hbufs, hjoin⟩ := collectBuffers_eq f (completedSegments segs)
      (fun s hs => (mem_completedSegments hs).2) hfetch
    rw [hbufs]
    dsimp only
    have hmp : bufs.flatten = mergePayload f segs := hjoin
    rw [hmp]
    by_cases hnil : mergePayload f segs = []
    · rw [if_pos hnil, if_pos (by rw [hnil]; rfl)]
    · rw [if_neg hnil, if_neg (fun h => hnil (List.length_eq_zero.mp h))]

lemma mergePayload_eq_nil_iff (f : String → Option (List ℕ))
    (segs : List (Seg String)) :
    mergePayload f segs = [] ↔
      ∀ s ∈ completedSegments segs,
        ((f (s.audioUrl.getD "")).getD []).length ≤ 44 := by
  unfold mergePayload
  rw [List.flatten_eq_nil_iff]
  constructor
  · intro h s hs
    have := h (condScaled f s) (List.mem_map_of_mem _ hs)
    have hlen := condScaled_length f s
    rw [this] at hlen
    simp only [List.length_nil] at hlen
    omega
  · intro h x hx
    obtain ⟨s, hs, rfl⟩ := List.mem_map.mp hx
    have := h s hs
    refine List.length_eq_zero.mp ?_
    rw [condScaled_length]
    omega

lemma collectBuffers_error_iff (f : String → Option (List ℕ)) :
    ∀ l : List (Seg String), (∀ s ∈ l, s.audioUrl.getD "" ≠ "") →
      ((∃ e, collectBuffers f l = Except.error e) ↔
        ∃ s ∈ l, f (s.audioUrl.getD "") = none)
  | [], _hu => by
    simp [collectBuffers]
  | s :: rest, hu => by
    rw [collectBuffers]
    rw [if_neg (hu s (List.mem_cons_self _ _))]
    have ih := collectBuffers_error_iff f rest
      (fun x hx => hu x (List.mem_cons_of_mem _ hx))
    cases hfb : f (s.audioUrl.getD "") with
    | none =>
      constructor
      · intro _
        exact ⟨s, List.mem_cons_self _ _, hfb⟩
      · intro _
        exact ⟨(), rfl⟩
    | some b =>
      dsimp only
      cases hrec : collectBuffers f rest with
      | error e =>
        constructor
        · intro _
          obtain ⟨x, hx, hfx⟩ := ih.mp ⟨e, hrec⟩
          exact ⟨x, List.mem_cons_of_mem _ hx, hfx⟩
        · intro _
          exact ⟨e, rfl⟩
      | ok bufs =>
        constructor
        · intro ⟨e, he⟩
          cases he
        · intro ⟨x, hx, hfx⟩
          exfalso
          rcases List.mem_cons.mp hx with rfl | hx
          · rw [hfb] at hfx
            cases hfx
          · obtain ⟨e, he⟩ := ih.mpr ⟨x, hx, hfx⟩
            rw [hrec] at he
            cases he

/-- Claim C7 counterexample, two parts.  First: one Done unit whose
container is exactly 44 bytes — not smaller than the header — still
yields the "no valid audio" failure, because the source keeps only
containers strictly larger than 44 bytes.  Second: with a perfectly
mergeable 45-byte unit present, a second Done unit whose container
fetch fails is not silently skipped — the whole merge aborts with the
generic merge error instead of producing an output container. -/
theorem C7_counterexample :
    (handleExportMerged
        (fun u => if u = "u" then some (List.replicate 44 0) else none)
        [⟨0, SegmentStatus.COMPLETED, some "u", none, 1⟩] =
      MergeResult.noValidAudio ∧
     ¬ (List.replicate 44 (0 : ℕ)).length < 44) ∧
    handleExportMerged
        (fun u => if u = "a" then some (List.replicate 45 0) else none)
        [⟨0, SegmentStatus.COMPLETED, some "a", none, 1⟩,
         ⟨1, SegmentStatus.COMPLETED, some "b", none, 1⟩] =
      MergeResult.mergeError := by
  refine ⟨⟨?_, ?_⟩, ?_⟩
  · decide
  · decide
  · decide

/-- Claim C7 (amended): the merge fails with NothingToExport exactly
when no unit is Done (with a stored URL); it fails with the generic
merge error exactly when some Done unit's container fetch fails (a
unit without a retrievable container is not silently skipped — it
aborts the merge); when every Done unit's fetch succeeds, it fails
with NoValidAudio exactly when some unit qualifies but every Done
unit's container is at most the fixed 44-byte header size (the source
keeps only containers strictly larger than 44 bytes), and in all
remaining cases produces the merged output container. -/
theorem C7_merge_failures (f : String → Option (List ℕ))
    (segs : List (Seg String)) :
    (handleExportMerged f segs = MergeResult.nothingToExport ↔
      completedSegments segs = []) ∧
    (handleExportMerged f segs = MergeResult.mergeError ↔
      ∃ s ∈ completedSegments segs, f (s.audioUrl.getD "") = none) ∧
    ((∀ s ∈ completedSegments segs, (f (s.audioUrl.getD "")).isSome = true) →
      (handleExportMerged f segs = MergeResult.noValidAudio ↔
        completedSegments segs ≠ [] ∧
        ∀ s ∈ completedSegments segs,
          ((f (s.audioUrl.getD "")).getD []).length ≤ 44)) ∧
    ((∀ s ∈ completedSegments segs, (f (s.audioUrl.getD "")).isSome = true) →
      completedSegments segs ≠ [] →
      (∃ s ∈ completedSegments segs,
        44 < ((f (s.audioUrl.getD "")).getD []).length) →
      handleExportMerged f segs =
        MergeResult.ok (encode (mergePayload f segs) 24000)) := by
  refine ⟨?_, ?_, ?_, ?_⟩
  · unfold handleExportMerged
    by_cases h0 : (completedSegments segs).length = 0
    · rw [if_pos h0]
      simp [List.length_eq_zero.mp h0]
    · rw [if_neg h0]
      have hne : ¬ completedSegments segs = [] := fun h => h0 (by rw [h]; rfl)
      cases hcb : collectBuffers f (completedSegments segs) with
      | error e =>
        simp [hne]
      | ok bufs =>
        dsimp only
        by_cases h1 : bufs.flatten.length = 0
        · rw [if_pos h1]
          simp [hne]
        · rw [if_neg h1]
          simp [hne]
  · unfold handleExportMerged
    have herr := collectBuffers_error_iff f (completedSegments segs)
      (fun x hx => (mem_completedSegments hx).2)
    by_cases h0 : (completedSegments segs).length = 0
    · rw [if_pos h0]
      rw [List.length_eq_zero.mp h0]
      simp
    · rw [if_neg h0]
      cases hcb : collectBuffers f (completedSegments segs) with
      | error e =>
        simp only [true_iff]
        exact herr.mp ⟨e, hcb⟩
      | ok bufs =>
        have hnone : ¬ ∃ s ∈ completedSegments segs,
            f (s.audioUrl.getD "") = none := by
          intro h
          obtain ⟨e, he⟩ := herr.mpr h
          rw [hcb] at he
          cases he
        dsimp only
        by_cases h1 : bufs.flatten.length = 0
        · rw [if_pos h1]
          simp [hnone]
        · rw [if_neg h1]
          simp [hnone]
  · intro hfetch
    have heq := handleExportMerged_eq f segs hfetch
    rw [heq]
    by_cases h0 : completedSegments segs = []
    · rw [if_pos h0]
      constructor
      · intro h
        cases h
      · intro h
        exact absurd h0 h.1
    · rw [if_neg h0]
      by_cases h1 : mergePayload f segs = []
      · rw [if_pos h1]
        constructor
        · intro _
          exact ⟨h0, (mergePayload_eq_nil_iff f segs).mp h1⟩
        · intro _
          rfl
      · rw [if_neg h1]
        constructor
        · intro h
          cases h
        · intro h
          exact absurd ((mergePayload_eq_nil_iff f segs).mpr h.2) h1
  · intro hfetch h0 hbig
    have heq := handleExportMerged_eq f segs hfetch
    rw [heq, if_neg h0]
    obtain ⟨s, hs, hlen⟩ := hbig
    have h1 : mergePayload f segs ≠ [] := by
      intro h
      have := (mergePayload_eq_nil_iff f segs).mp h s hs
      omega
    rw [if_neg h1]

/-- Claim C7, witness: a single Done unit with a 46-byte container
merges into an output container; a failing fetch on a lone Done unit
yields the generic merge error. -/
theorem C7_witness :
    handleExportMerged
        (fun u => if u = "u" then some (List.replicate 46 3) else none)
        [⟨0, SegmentStatus.COMPLETED, some "u", none, 1⟩] =
      MergeResult.ok (encode (mergePayload
        (fun u => if u = "u" then some (List.replicate 46 3) else none)
        [⟨0, SegmentStatus.COMPLETED, some "u", none, 1⟩]) 24000) ∧
    handleExportMerged (fun _ => none)
        [⟨0, SegmentStatus.COMPLETED, some "u", none, 1⟩] =
      MergeResult.mergeError :=
  ⟨(C7_merge_failures
      (fun u => if u = "u" then some (List.replicate 46 3) else none)
      [⟨0, SegmentStatus.COMPLETED, some "u", none, 1⟩]).2.2.2
      (by decide) (by decide)
      ⟨⟨0, SegmentStatus.COMPLETED, some "u", none, 1⟩, by decide, by decide⟩,
   (C7_merge_failures (fun _ => none)
      [⟨0, SegmentStatus.COMPLETED, some "u", none, 1⟩]).2.1.mpr
      ⟨⟨0, SegmentStatus.COMPLETED, some "u", none, 1⟩, by decide, rfl⟩⟩

/-- Claim C8: under successful fetches and a non-empty merged payload,
the merge produces a container whose payload (the bytes after the
44-byte header) is the in-order concatenation over the Done units of
each one's header-stripped raw samples, volume-scaled exactly when its
gain differs from 1.0 by more than 0.01. -/
theorem C8_merge_ordering (f : String → Option (List ℕ))
    (segs : List (Seg String))
    (hfetch : ∀ s ∈ completedSegments segs, (f (s.audioUrl.getD "")).isSome = true)
    (hbig : ∃ s ∈ completedSegments segs,
      44 < ((f (s.audioUrl.getD "")).getD []).length) :
    handleExportMerged f segs =
      MergeResult.ok
        (encode (((completedSegments segs).map (condScaled f)).flatten) 24000) ∧
    decode (encode (((completedSegments segs).map (condScaled f)).flatten) 24000) =
      ((completedSegments segs).map (condScaled f)).flatten := by
  obtain ⟨s, hs, hlen⟩ := hbig
  have hne : mergePayload f segs ≠ [] := by
    intro h
    have := (mergePayload_eq_nil_iff f segs).mp h s hs
    omega
  have h0 : completedSegments segs ≠ [] := by
    intro h
    rw [h] at hs
    cases hs
  have heq := handleExportMerged_eq f segs hfetch
  rw [if_neg h0, if_neg hne] at heq
  refine ⟨heq, ?_⟩
  unfold decode encode
  exact List.drop_left' (wavHeader_length _ _)

/-- Claim C8, witness: [A(gain 1.0, samples 10,0,20,0), B(gain 0.5,
samples 100,0)] merge into raw(A) followed by scale(raw(B), 0.5) =
[10,0,20,0] ++ [50,0], in positional order with only B attenuated. -/
theorem C8_witness :
    handleExportMerged
        (fun u => if u = "a" then some (List.replicate 44 0 ++ [10, 0, 20, 0])
                  else if u = "b" then some (List.replicate 44 0 ++ [100, 0])
                  else none)
        [⟨0, SegmentStatus.COMPLETED, some "a", none, 1⟩,
         ⟨1, SegmentStatus.COMPLETED, some "b", none, 1 / 2⟩] =
      MergeResult.ok (encode [10, 0, 20, 0, 50, 0] 24000) := by
  have h := (C8_merge_ordering
    (fun u => if u = "a" then some (List.replicate 44 0 ++ [10, 0, 20, 0])
              else if u = "b" then some (List.replicate 44 0 ++ [100, 0])
              else none)
    [⟨0, SegmentStatus.COMPLETED, some "a", none, 1⟩,
     ⟨1, SegmentStatus.COMPLETED, some "b", none, 1 / 2⟩]
    (by decide)
    ⟨⟨0, SegmentStatus.COMPLETED, some "a", none, 1⟩, by decide, by decide⟩).1
  rw [h]
  have hA : condScaled
      (fun u => if u = "a" then some (List.replicate 44 0 ++ [10, 0, 20, 0])
                else if u = "b" then some (List.replicate 44 0 ++ [100, 0])
                else none)
      (⟨0, SegmentStatus.COMPLETED, some "a", none, 1⟩ : Seg String) =
      [10, 0, 20, 0] := by
    unfold condScaled
    rw [if_neg (by norm_num : ¬ |(1 : ℚ) - 1| > 1 / 100)]
    rfl
  have hss : scaleSample (1 / 2) (int16OfBytes 100 0) = 50 := by
    have h100 : int16OfBytes 100 0 = 100 := by decide
    rw [h100]
    unfold scaleSample clampRat jsTrunc
    have hq : ((100 : ℤ) : ℚ) * (1 / 2) = 50 := by norm_num
    rw [hq, if_neg (show ¬ (50 : ℚ) > 32767 by norm_num),
      if_neg (show ¬ (50 : ℚ) < -32768 by norm_num),
      if_pos (show (0 : ℚ) ≤ 50 by norm_num)]
    rw [Int.floor_eq_iff]
    constructor <;> norm_num
  have hB : condScaled
      (fun u => if u = "a" then some (List.replicate 44 0 ++ [10, 0, 20, 0])
                else if u = "b" then some (List.replicate 44 0 ++ [100, 0])
                else none)
      (⟨1, SegmentStatus.COMPLETED, some "b", none, 1 / 2⟩ : Seg String) =
      [50, 0] := by
    unfold condScaled
    rw [if_pos (by rw [abs_of_nonpos] <;> norm_num : |(1 / 2 : ℚ) - 1| > 1 / 100)]
    have hdec : decode ((((fun u =>
        if u = "a" then some (List.replicate 44 0 ++ [10, 0, 20, 0])
        else if u = "b" then some (List.replicate 44 0 ++ [100, 0])
        else none) : String → Option (List ℕ))
          ((some "b" : Option String).getD "")).getD []) = [100, 0] := by decide
    rw [hdec, scaleBytes, hss]
    rfl
  have hc : completedSegments
      [⟨0, SegmentStatus.COMPLETED, some "a", none, 1⟩,
       ⟨1, SegmentStatus.COMPLETED, some "b", none, 1 / 2⟩] =
      [⟨0, SegmentStatus.COMPLETED, some "a", none, 1⟩,
       ⟨1, SegmentStatus.COMPLETED, some "b", none, 1 / 2⟩] := rfl
  rw [hc, List.map_cons, List.map_cons, List.map_nil, hA, hB]
  rfl

end BVT
